import Mathlib

/-!
Verification of the KPI aggregation engine of the public-transport delay
analysis repository (`src/kpi_aggregation.py`).

Embedding conventions:
* Python floats are modelled as exact rationals (`ℚ`); the spec's arithmetic
  identities are stated over ideal (exact) arithmetic.
* A missing value (`NaN` / `None` in pandas) is `Option.none`; pandas'
  `fillna d` is `Option.getD d`, `dropna` is `List.filterMap id`, and
  `Series.clip` maps over the defined values only (NaN stays NaN, exactly
  as in pandas).
* A `DataFrame` of cleaned delay events is a `Table`: a list of rows
  together with three flags recording which of the three columns used by
  the engine (`route_id`, `hour`, `delay_minutes`) are present.  Accessing
  an absent column is a `KeyError`, modelled with `Except String`.
* `groupby(key, dropna=False).apply(_group_kpis)` is modelled as: one
  output row per distinct key value (null keys kept as their own group),
  each row computed by `_group_kpis` from the group's `delay_minutes`
  column.  Pandas raises a `KeyError` out of `apply` when
  `delay_minutes` is absent (the per-group slice lookup fails), which the
  model reflects by failing whenever the column is missing.
-/

namespace PTDelay

/-- One cleaned delay event, restricted to the three columns the
aggregation engine reads (`route_id`, `hour`, `delay_minutes`); every
other column is pass-through and irrelevant to the computation.  All three
values may be null. -/
structure Row where
  route_id : Option String
  hour : Option ℚ
  delay_minutes : Option ℚ
deriving DecidableEq, Repr

/-- An event dataframe: its rows plus presence flags for the three columns
the engine uses.  A `false` flag means the column is absent from the
frame, so reading it raises a `KeyError`. -/
structure Table where
  has_route_id : Bool
  has_hour : Bool
  has_delay_minutes : Bool
  rows : List Row
deriving DecidableEq, Repr

/-- The per-group statistics returned by `_group_kpis`
(`avg_delay_min`, `p90_delay_min`, `on_time_rate` are NaN — here `none` —
for a group with no non-null delay). -/
structure GroupStats where
  avg_delay_min : Option ℚ
  p90_delay_min : Option ℚ
  on_time_rate : Option ℚ
  n_events : ℕ
deriving DecidableEq, Repr

/-- A KPI output row after `_add_reliability_score`: the group key, the
four statistics, and the composite score column. -/
structure ScoredRow (K : Type) where
  key : K
  avg_delay_min : Option ℚ
  p90_delay_min : Option ℚ
  on_time_rate : Option ℚ
  n_events : ℕ
  reliability_score : ℚ
deriving DecidableEq, Repr

/-- `delay.mean()` on a pandas series of rationals. -/
def mean (l : List ℚ) : ℚ := l.sum / l.length

/-- `delay.quantile(0.9)` with pandas' default linear interpolation:
with the `n` values sorted ascending as `x_0 ≤ … ≤ x_(n-1)`, the result is
`x_lo + (h - lo) * (x_(lo+1) - x_lo)` where `h = 0.9 * (n - 1)` and
`lo = ⌊h⌋`.  (For `lo = n - 1`, only possible when `n = 1`, the fractional
part is `0`, so the out-of-range neighbour never contributes; the model
defaults it to `x_lo`.) -/
def quantile90 (l : List ℚ) : ℚ :=
  let s := l.insertionSort (· ≤ ·)
  let n := s.length
  let h : ℚ := 9 * ((n - 1 : ℕ) : ℚ) / 10
  let lo : ℕ := 9 * (n - 1) / 10
  let xlo := s.getD lo 0
  let xhi := s.getD (lo + 1) xlo
  xlo + (h - (lo : ℚ)) * (xhi - xlo)

/-- `(delay <= on_time_threshold_min).mean()`: the fraction of the values
that are at most the threshold (inclusive comparison). -/
def onTimeRate (l : List ℚ) (thr : ℚ) : ℚ :=
  (l.countP (fun x => decide (x ≤ thr)) : ℚ) / (l.length : ℚ)

/-- `_group_kpis(group, on_time_threshold_min)`: drop null delays; if
nothing is left return NaN statistics and `n_events = 0` (no error),
otherwise the mean, the interpolated 90th percentile, the on-time rate and
the count. -/
def _group_kpis (delays : List (Option ℚ)) (thr : ℚ) : GroupStats :=
  let delay := delays.filterMap id
  if delay.isEmpty then
    { avg_delay_min := none, p90_delay_min := none, on_time_rate := none, n_events := 0 }
  else
    { avg_delay_min := some (mean delay)
      p90_delay_min := some (quantile90 delay)
      on_time_rate := some (onTimeRate delay thr)
      n_events := delay.length }

/-- `Series.clip(lower=0, upper=10)` applied to one defined value. -/
def clip0_10 (a : ℚ) : ℚ := min (max a 0) 10

/-- The reliability score of one KPI row, exactly as `_add_reliability_score`
computes it columnwise:
`delay_penalty = clip(avg, 0, 10) / 10` (NaN stays NaN, then `fillna(1)`),
`on_time = on_time_rate.fillna(0)`,
`score = 100 * (0.6 * on_time + 0.4 * (1 - delay_penalty))`. -/
def reliability_score (avg on_time : Option ℚ) : ℚ :=
  let delay_penalty : Option ℚ := avg.map (fun a => clip0_10 a / 10)
  100 * ((6 / 10) * on_time.getD 0 + (4 / 10) * (1 - delay_penalty.getD 1))

/-- `_add_reliability_score(kpis)`: attach the `reliability_score` column
to every row of a KPI table (the function copies the frame first; the
heap-level model below makes the copy explicit). -/
def _add_reliability_score {K : Type} (kpis : List (K × GroupStats)) : List (ScoredRow K) :=
  kpis.map fun r =>
    { key := r.1
      avg_delay_min := r.2.avg_delay_min
      p90_delay_min := r.2.p90_delay_min
      on_time_rate := r.2.on_time_rate
      n_events := r.2.n_events
      reliability_score := reliability_score r.2.avg_delay_min r.2.on_time_rate }

/-- Python `int()` on a rational: truncation toward zero. -/
def py_int (q : ℚ) : ℤ := if 0 ≤ q then q.floor else q.ceil

/-- The inner `_bucket` function of `_add_time_of_day_bucket`: null hour is
`"Unknown"`, otherwise the hour is truncated with `int()` and classified by
the half-open ranges `[7,10)`, `[10,16)`, `[16,19)`, with everything else
`"Night / off-peak"`. -/
def _bucket (h : Option ℚ) : String :=
  match h with
  | none => "Unknown"
  | some x =>
    let h_i := py_int x
    if 7 ≤ h_i ∧ h_i < 10 then "Morning peak"
    else if 10 ≤ h_i ∧ h_i < 16 then "Midday"
    else if 16 ≤ h_i ∧ h_i < 19 then "Evening peak"
    else "Night / off-peak"

/-- Helper for `uniqueKeys`: keep the first occurrence of every key not
already seen. -/
def uniqueKeysAux {K : Type} [DecidableEq K] : List K → List K → List K
  | [], _ => []
  | k :: ks, seen =>
    if k ∈ seen then uniqueKeysAux ks seen
    else k :: uniqueKeysAux ks (k :: seen)

/-- The distinct values of a key column in first-occurrence order (pandas
`groupby` with `dropna=False`: null keys form their own group; the claims
under check do not depend on the relative order of the groups). -/
def uniqueKeys {K : Type} [DecidableEq K] (l : List K) : List K :=
  uniqueKeysAux l []

/-- `df.groupby(keys, dropna=False).apply(_group_kpis, thr).reset_index()`:
one `(key, stats)` row per distinct key.  `_group_kpis` reads the group's
`delay_minutes` column, so the whole application raises a `KeyError` when
that column is absent from the frame. -/
def groupby_apply {R K : Type} [DecidableEq K] (has_delay : Bool) (rows : List R)
    (key : R → K) (delay : R → Option ℚ) (thr : ℚ) :
    Except String (List (K × GroupStats)) :=
  if has_delay then
    Except.ok ((uniqueKeys (rows.map key)).map fun k =>
      (k, _group_kpis ((rows.filter fun r => decide (key r = k)).map delay) thr))
  else Except.error "KeyError: delay_minutes"

/-- `compute_route_kpis(df, on_time_threshold_min)`. -/
def compute_route_kpis (df : Table) (thr : ℚ) :
    Except String (List (ScoredRow (Option String))) :=
  if !df.has_route_id || !df.has_delay_minutes then
    Except.error "Dataframe must contain route_id and delay_minutes"
  else
    (groupby_apply df.has_delay_minutes df.rows (fun r => r.route_id)
      (fun r => r.delay_minutes) thr).map _add_reliability_score

/-- `compute_route_hour_kpis(df, on_time_threshold_min)`: the function
only checks `hour` explicitly; a missing `route_id` column makes the
`groupby(["route_id", "hour"])` itself raise a `KeyError`. -/
def compute_route_hour_kpis (df : Table) (thr : ℚ) :
    Except String (List (ScoredRow (Option String × Option ℚ))) :=
  if !df.has_hour then
    Except.error "Dataframe must contain hour"
  else if !df.has_route_id then
    Except.error "KeyError: route_id"
  else
    (groupby_apply df.has_delay_minutes df.rows (fun r => (r.route_id, r.hour))
      (fun r => r.delay_minutes) thr).map _add_reliability_score

/-- An event row with the derived `time_of_day` column attached. -/
structure BRow where
  row : Row
  time_of_day : String
deriving DecidableEq, Repr

/-- The bucketed frame produced by `_add_time_of_day_bucket` (a fresh copy
of the input with the extra column). -/
structure BTable where
  has_route_id : Bool
  has_delay_minutes : Bool
  rows : List BRow
deriving DecidableEq, Repr

/-- `_add_time_of_day_bucket(df)`: raises when `hour` is absent, otherwise
returns a copy of the frame with `time_of_day = df["hour"].apply(_bucket)`. -/
def _add_time_of_day_bucket (df : Table) : Except String BTable :=
  if !df.has_hour then
    Except.error "Dataframe must contain hour"
  else
    Except.ok
      { has_route_id := df.has_route_id
        has_delay_minutes := df.has_delay_minutes
        rows := df.rows.map fun r => { row := r, time_of_day := _bucket r.hour } }

/-- `compute_route_period_kpis(df, on_time_threshold_min)`. -/
def compute_route_period_kpis (df : Table) (thr : ℚ) :
    Except String (List (ScoredRow (Option String × String))) :=
  match _add_time_of_day_bucket df with
  | Except.error e => Except.error e
  | Except.ok bdf =>
    if !bdf.has_route_id then
      Except.error "KeyError: route_id"
    else
      (groupby_apply bdf.has_delay_minutes bdf.rows
        (fun r => (r.row.route_id, r.time_of_day))
        (fun r => r.row.delay_minutes) thr).map _add_reliability_score

/-- Helper: an `Except` value is an error. -/
def isErr {ε α : Type} : Except ε α → Bool
  | Except.error _ => true
  | Except.ok _ => false

/-! ### Frame-store model of dataframe identity

The spec's frame condition ("the engine must not mutate caller-owned event
data") is about object identity, which the pure functions above cannot
express.  The definitions below replay the statements of the Python
functions over an explicit store of dataframes: a python variable holding a
dataframe is an index into the store, `df.copy()` allocates a fresh index
with the same contents, and in-place column assignment (`df[c] = v`)
overwrites the frame at an index.  The pure functions above supply the
values that the statements compute. -/

/-- The group keys of the three aggregation granularities. -/
abbrev RouteKey := Option String
abbrev HourKey := Option String × Option ℚ
abbrev PeriodKey := Option String × String

/-- A dataframe living in the store: an event frame, a bucketed event
frame, or a KPI frame (with or without the score column) of one of the
three granularities. -/
inductive Frame where
  | ev (t : Table)
  | bev (t : BTable)
  | kpiR (rows : List (RouteKey × GroupStats))
  | scoredR (rows : List (ScoredRow RouteKey))
  | kpiH (rows : List (HourKey × GroupStats))
  | scoredH (rows : List (ScoredRow HourKey))
  | kpiP (rows : List (PeriodKey × GroupStats))
  | scoredP (rows : List (ScoredRow PeriodKey))
deriving DecidableEq, Repr

/-- The store of live dataframes; a frame id is an index into it. -/
abbrev Store := List Frame

/-- `compute_route_kpis` over the store: read the input frame, check the
schema, build the grouped KPI frame (`groupby(...).apply(...).reset_index()`
constructs a new dataframe), then run `_add_reliability_score` on it:
`kpis = kpis.copy()` allocates a fresh frame and
`kpis["reliability_score"] = score` overwrites that fresh frame in place;
the id of the copy is returned. -/
def py_compute_route_kpis (s : Store) (i : ℕ) (thr : ℚ) : Except String (Store × ℕ) :=
  match s[i]? with
  | some (Frame.ev df) =>
    if !df.has_route_id || !df.has_delay_minutes then
      Except.error "Dataframe must contain route_id and delay_minutes"
    else
      match groupby_apply df.has_delay_minutes df.rows (fun r => r.route_id)
          (fun r => r.delay_minutes) thr with
      | Except.error e => Except.error e
      | Except.ok rows =>
        let s1 := s ++ [Frame.kpiR rows]
        let s2 := s1 ++ [Frame.kpiR rows]
        let s3 := s2.set s1.length (Frame.scoredR (_add_reliability_score rows))
        Except.ok (s3, s1.length)
  | _ => Except.error "TypeError: expected an event frame"

/-- `compute_route_hour_kpis` over the store (same allocation discipline as
the route-level operation). -/
def py_compute_route_hour_kpis (s : Store) (i : ℕ) (thr : ℚ) : Except String (Store × ℕ) :=
  match s[i]? with
  | some (Frame.ev df) =>
    if !df.has_hour then
      Except.error "Dataframe must contain hour"
    else if !df.has_route_id then
      Except.error "KeyError: route_id"
    else
      match groupby_apply df.has_delay_minutes df.rows (fun r => (r.route_id, r.hour))
          (fun r => r.delay_minutes) thr with
      | Except.error e => Except.error e
      | Except.ok rows =>
        let s1 := s ++ [Frame.kpiH rows]
        let s2 := s1 ++ [Frame.kpiH rows]
        let s3 := s2.set s1.length (Frame.scoredH (_add_reliability_score rows))
        Except.ok (s3, s1.length)
  | _ => Except.error "TypeError: expected an event frame"

/-- `compute_route_period_kpis` over the store: `_add_time_of_day_bucket`
copies the input frame (`df = df.copy()`) and then assigns the
`time_of_day` column in place on the copy; grouping then builds a new KPI
frame and the scorer copies and overwrites as above. -/
def py_compute_route_period_kpis (s : Store) (i : ℕ) (thr : ℚ) : Except String (Store × ℕ) :=
  match s[i]? with
  | some (Frame.ev df) =>
    if !df.has_hour then
      Except.error "Dataframe must contain hour"
    else
      let bdf : BTable :=
        { has_route_id := df.has_route_id
          has_delay_minutes := df.has_delay_minutes
          rows := df.rows.map fun r => { row := r, time_of_day := _bucket r.hour } }
      let s1 := (s ++ [Frame.ev df]).set s.length (Frame.bev bdf)
      if !bdf.has_route_id then
        Except.error "KeyError: route_id"
      else
        match groupby_apply bdf.has_delay_minutes bdf.rows
            (fun r => (r.row.route_id, r.time_of_day))
            (fun r => r.row.delay_minutes) thr with
        | Except.error e => Except.error e
        | Except.ok rows =>
          let s2 := s1 ++ [Frame.kpiP rows]
          let s3 := s2 ++ [Frame.kpiP rows]
          let s4 := s3.set s2.length (Frame.scoredP (_add_reliability_score rows))
          Except.ok (s4, s2.length)
  | _ => Except.error "TypeError: expected an event frame"

/-! ### Spec-side definitions (for refinement claims) -/

/-- The Reliability Scorer formula exactly as §4.2 of the spec writes it,
used as the comparison point for the refinement claim about the scorer:
`delay_penalty = clamp(avg_delay_min, 0, 10) / 10` (treated as `1` when
`avg_delay_min` is undefined), `on_time = on_time_rate` (treated as `0`
when undefined), `score = 100 * (0.6 * on_time + 0.4 * (1 - delay_penalty))`. -/
def spec_reliability_score (avg on_time : Option ℚ) : ℚ :=
  let delay_penalty : ℚ :=
    match avg with
    | none => 1
    | some a => max 0 (min a 10) / 10
  let ot : ℚ :=
    match on_time with
    | none => 0
    | some x => x
  100 * ((6 / 10) * ot + (4 / 10) * (1 - delay_penalty))

/-! ### Shared lemmas -/

theorem clip0_10_nonneg (a : ℚ) : 0 ≤ clip0_10 a :=
  le_min (le_max_right a 0) (by norm_num)

theorem clip0_10_le (a : ℚ) : clip0_10 a ≤ 10 := min_le_right _ _

/-- The two usual ways to write a two-sided clamp agree. -/
theorem clip0_10_eq_clamp (a : ℚ) : clip0_10 a = max 0 (min a 10) := by
  unfold clip0_10
  rw [max_min_distrib_left, max_comm a 0]
  norm_num

theorem onTimeRate_nonneg (l : List ℚ) (thr : ℚ) : 0 ≤ onTimeRate l thr :=
  div_nonneg (Nat.cast_nonneg _) (Nat.cast_nonneg _)

theorem onTimeRate_le_one (l : List ℚ) (thr : ℚ) (h : l ≠ []) : onTimeRate l thr ≤ 1 := by
  unfold onTimeRate
  have hlen : 0 < (l.length : ℚ) := by
    exact_mod_cast List.length_pos.mpr h
  rw [div_le_one hlen]
  exact_mod_cast List.countP_le_length (p := fun x => decide (x ≤ thr))

theorem reliability_score_eq_spec (avg ot : Option ℚ) :
    reliability_score avg ot = spec_reliability_score avg ot := by
  unfold reliability_score spec_reliability_score
  rcases avg with _ | a <;> rcases ot with _ | x <;> simp [clip0_10_eq_clamp]

theorem reliability_score_bounds (avg ot : Option ℚ)
    (h0 : ∀ x, ot = some x → 0 ≤ x) (h1 : ∀ x, ot = some x → x ≤ 1) :
    0 ≤ reliability_score avg ot ∧ reliability_score avg ot ≤ 100 := by
  unfold reliability_score
  have hp : 0 ≤ (avg.map fun a => clip0_10 a / 10).getD 1 ∧
      (avg.map fun a => clip0_10 a / 10).getD 1 ≤ 1 := by
    rcases avg with _ | a
    · norm_num
    · constructor
      · simpa using div_nonneg (clip0_10_nonneg a) (by norm_num)
      · simp only [Option.map_some', Option.getD_some]
        rw [div_le_one (by norm_num)]
        exact clip0_10_le a
  have hx : 0 ≤ ot.getD 0 ∧ ot.getD 0 ≤ 1 := by
    rcases ot with _ | x
    · norm_num
    · simpa using ⟨h0 x rfl, h1 x rfl⟩
  constructor <;> nlinarith [hp.1, hp.2, hx.1, hx.2]

theorem reliability_score_undefined : reliability_score none none = 0 := by
  unfold reliability_score
  norm_num

theorem group_kpis_empty (delays : List (Option ℚ)) (thr : ℚ)
    (h : delays.filterMap id = []) :
    _group_kpis delays thr = ⟨none, none, none, 0⟩ := by
  unfold _group_kpis
  simp [h]

theorem group_kpis_nonempty (delays : List (Option ℚ)) (thr : ℚ)
    (h : delays.filterMap id ≠ []) :
    _group_kpis delays thr =
      ⟨some (mean (delays.filterMap id)), some (quantile90 (delays.filterMap id)),
       some (onTimeRate (delays.filterMap id) thr), (delays.filterMap id).length⟩ := by
  unfold _group_kpis
  simp [h]

theorem group_kpis_n_zero (delays : List (Option ℚ)) (thr : ℚ)
    (h : (_group_kpis delays thr).n_events = 0) :
    _group_kpis delays thr = ⟨none, none, none, 0⟩ := by
  by_cases he : delays.filterMap id = []
  · exact group_kpis_empty _ _ he
  · exfalso
    rw [group_kpis_nonempty _ _ he] at h
    exact he (List.length_eq_zero.mp h)

theorem group_kpis_ot_bounds (delays : List (Option ℚ)) (thr : ℚ) :
    ∀ x, (_group_kpis delays thr).on_time_rate = some x → 0 ≤ x ∧ x ≤ 1 := by
  intro x hx
  by_cases he : delays.filterMap id = []
  · rw [group_kpis_empty _ _ he] at hx
    simp at hx
  · rw [group_kpis_nonempty _ _ he] at hx
    obtain rfl : onTimeRate (delays.filterMap id) thr = x := by
      simpa using hx
    exact ⟨onTimeRate_nonneg _ _, onTimeRate_le_one _ _ he⟩

theorem mem_add_reliability_score {K : Type} {kpis : List (K × GroupStats)}
    {row : ScoredRow K} (h : row ∈ _add_reliability_score kpis) :
    ∃ pr ∈ kpis,
      row = { key := pr.1, avg_delay_min := pr.2.avg_delay_min,
              p90_delay_min := pr.2.p90_delay_min, on_time_rate := pr.2.on_time_rate,
              n_events := pr.2.n_events,
              reliability_score := reliability_score pr.2.avg_delay_min pr.2.on_time_rate } := by
  unfold _add_reliability_score at h
  obtain ⟨pr, hpr, hrow⟩ := List.mem_map.mp h
  exact ⟨pr, hpr, hrow.symm⟩

theorem groupby_apply_ok {R K : Type} [DecidableEq K] {hd : Bool} {rows : List R}
    {key : R → K} {delay : R → Option ℚ} {thr : ℚ} {res : List (K × GroupStats)}
    (h : groupby_apply hd rows key delay thr = Except.ok res) :
    res = (uniqueKeys (rows.map key)).map fun k =>
      (k, _group_kpis ((rows.filter fun r => decide (key r = k)).map delay) thr) := by
  unfold groupby_apply at h
  cases hd
  · simp at h
  · simpa using h.symm

theorem except_map_ok {ε α β : Type} {f : α → β} {e : Except ε α} {b : β}
    (h : Except.map f e = Except.ok b) : ∃ a, e = Except.ok a ∧ b = f a := by
  cases e with
  | error err => simp [Except.map] at h
  | ok a =>
    refine ⟨a, rfl, ?_⟩
    simpa [Except.map] using h.symm

/-- Every row of a scored KPI table is, fieldwise, the scored image of
`_group_kpis` on some list of (optional) delays. -/
def IsGroupRow {K : Type} (thr : ℚ) (row : ScoredRow K) : Prop :=
  ∃ dl : List (Option ℚ),
    row.avg_delay_min = (_group_kpis dl thr).avg_delay_min ∧
    row.p90_delay_min = (_group_kpis dl thr).p90_delay_min ∧
    row.on_time_rate = (_group_kpis dl thr).on_time_rate ∧
    row.n_events = (_group_kpis dl thr).n_events ∧
    row.reliability_score =
      reliability_score (_group_kpis dl thr).avg_delay_min (_group_kpis dl thr).on_time_rate

theorem scored_pipeline_rows {R K : Type} [DecidableEq K] {hd : Bool} {rows : List R}
    {key : R → K} {delay : R → Option ℚ} {thr : ℚ} {res : List (ScoredRow K)}
    (h : Except.map _add_reliability_score (groupby_apply hd rows key delay thr) =
      Except.ok res) :
    ∀ row ∈ res, IsGroupRow thr row := by
  intro row hrow
  obtain ⟨kpis, hk, hres⟩ := except_map_ok h
  subst hres
  obtain ⟨pr, hpr, hroweq⟩ := mem_add_reliability_score hrow
  have hkpis := groupby_apply_ok hk
  subst hkpis
  obtain ⟨k, _, hpr_eq⟩ := List.mem_map.mp hpr
  refine ⟨(rows.filter fun r => decide (key r = pr.1)).map delay, ?_, ?_, ?_, ?_, ?_⟩ <;>
    rw [hroweq] <;> simp [← hpr_eq]

theorem isGroupRow_props {K : Type} {thr : ℚ} {row : ScoredRow K} (h : IsGroupRow thr row) :
    0 ≤ row.reliability_score ∧ row.reliability_score ≤ 100 ∧
      (row.n_events = 0 → row.reliability_score = 0) := by
  obtain ⟨dl, _, _, _, hn, hs⟩ := h
  refine ⟨?_, ?_, ?_⟩
  · rw [hs]
    exact (reliability_score_bounds _ _ (fun x hx => (group_kpis_ot_bounds dl thr x hx).1)
      (fun x hx => (group_kpis_ot_bounds dl thr x hx).2)).1
  · rw [hs]
    exact (reliability_score_bounds _ _ (fun x hx => (group_kpis_ot_bounds dl thr x hx).1)
      (fun x hx => (group_kpis_ot_bounds dl thr x hx).2)).2
  · intro h0
    rw [hn] at h0
    rw [hs, group_kpis_n_zero dl thr h0]
    simpa using reliability_score_undefined

theorem route_kpis_rows {df : Table} {thr : ℚ} {res : List (ScoredRow RouteKey)}
    (h : compute_route_kpis df thr = Except.ok res) :
    ∀ row ∈ res, IsGroupRow thr row := by
  unfold compute_route_kpis at h
  split at h
  · simp at h
  · exact scored_pipeline_rows h

theorem route_hour_kpis_rows {df : Table} {thr : ℚ} {res : List (ScoredRow HourKey)}
    (h : compute_route_hour_kpis df thr = Except.ok res) :
    ∀ row ∈ res, IsGroupRow thr row := by
  unfold compute_route_hour_kpis at h
  split at h
  · simp at h
  · split at h
    · simp at h
    · exact scored_pipeline_rows h

theorem route_period_kpis_rows {df : Table} {thr : ℚ} {res : List (ScoredRow PeriodKey)}
    (h : compute_route_period_kpis df thr = Except.ok res) :
    ∀ row ∈ res, IsGroupRow thr row := by
  unfold compute_route_period_kpis at h
  split at h
  · simp at h
  · split at h
    · simp at h
    · exact scored_pipeline_rows h

/-! ### Concrete fixtures used by witnesses -/

/-- A well-formed three-event table: two delays on route 1 (0.5 and 2
minutes) plus a null-delay event on route 2. -/
def tblFull : Table :=
  { has_route_id := true, has_hour := true, has_delay_minutes := true
    rows := [{ route_id := some "1", hour := some 8, delay_minutes := some (1/2) },
             { route_id := some "1", hour := some 9, delay_minutes := some 2 },
             { route_id := some "2", hour := none, delay_minutes := none }] }

/-- The route-level KPI table of `tblFull` at threshold 1. -/
def resRouteFull : List (ScoredRow RouteKey) :=
  [{ key := some "1", avg_delay_min := some (5/4), p90_delay_min := some (37/20),
     on_time_rate := some (1/2), n_events := 2, reliability_score := 65 },
   { key := some "2", avg_delay_min := none, p90_delay_min := none,
     on_time_rate := none, n_events := 0, reliability_score := 0 }]

/-! ### Claims -/

/-- C1: every KPI row produced by the Reliability Scorer
(`_add_reliability_score`) carries exactly the spec's score
`100 * (0.6 * on_time + 0.4 * (1 - delay_penalty))` with
`delay_penalty = clamp(avg_delay_min, 0, 10) / 10`, undefined `on_time_rate`
treated as 0 and undefined `avg_delay_min` as full penalty 1; in particular
`avg_delay_min = 15`, `on_time_rate = 1` scores exactly 60. -/
theorem reliability_scorer_formula :
    (∀ (K : Type) (kpis : List (K × GroupStats)) (row : ScoredRow K),
      row ∈ _add_reliability_score kpis →
        row.reliability_score = spec_reliability_score row.avg_delay_min row.on_time_rate)
    ∧ reliability_score (some 15) (some 1) = 60
    ∧ spec_reliability_score (some 15) (some 1) = 60 := by
  refine ⟨?_, by with_unfolding_all rfl, by with_unfolding_all rfl⟩
  intro K kpis row hrow
  obtain ⟨pr, _, hroweq⟩ := mem_add_reliability_score hrow
  rw [hroweq]
  exact reliability_score_eq_spec pr.2.avg_delay_min pr.2.on_time_rate

/-- Witness for C1: the scorer applied to a single group with
`avg_delay_min = 15`, `on_time_rate = 1` produces a row whose score is the
spec formula's value (60). -/
theorem reliability_scorer_formula_witness :
    (⟨none, some 15, none, some 1, 3, 60⟩ : ScoredRow RouteKey) ∈
      _add_reliability_score [((none : RouteKey), ⟨some 15, none, some 1, 3⟩)]
    ∧ (⟨none, some 15, none, some 1, 3, 60⟩ : ScoredRow RouteKey).reliability_score =
      spec_reliability_score (some 15) (some 1) := by
  have hm : (⟨none, some 15, none, some 1, 3, 60⟩ : ScoredRow RouteKey) ∈
      _add_reliability_score [((none : RouteKey), ⟨some 15, none, some 1, 3⟩)] := by
    with_unfolding_all exact List.Mem.head _
  exact ⟨hm, reliability_scorer_formula.1 RouteKey _ _ hm⟩

/-- C2: for every input table accepted by any of the three KPI operations,
every output row has a reliability score that is defined (it is a total
`ℚ` field, never NaN) and lies in `[0, 100]`; a row whose group has zero
non-null delay observations scores exactly 0. -/
theorem reliability_score_always_defined_in_range (df : Table) (thr : ℚ) :
    (∀ res, compute_route_kpis df thr = Except.ok res →
      ∀ row ∈ res, 0 ≤ row.reliability_score ∧ row.reliability_score ≤ 100 ∧
        (row.n_events = 0 → row.reliability_score = 0))
    ∧ (∀ res, compute_route_hour_kpis df thr = Except.ok res →
      ∀ row ∈ res, 0 ≤ row.reliability_score ∧ row.reliability_score ≤ 100 ∧
        (row.n_events = 0 → row.reliability_score = 0))
    ∧ (∀ res, compute_route_period_kpis df thr = Except.ok res →
      ∀ row ∈ res, 0 ≤ row.reliability_score ∧ row.reliability_score ≤ 100 ∧
        (row.n_events = 0 → row.reliability_score = 0)) :=
  ⟨fun _ h row hm => isGroupRow_props (route_kpis_rows h row hm),
   fun _ h row hm => isGroupRow_props (route_hour_kpis_rows h row hm),
   fun _ h row hm => isGroupRow_props (route_period_kpis_rows h row hm)⟩

/-- Witness for C2: on the concrete table `tblFull`, the empty route-2
group yields a row scored exactly 0, inside `[0, 100]`. -/
theorem reliability_score_always_defined_in_range_witness :
    0 ≤ (⟨some "2", none, none, none, 0, 0⟩ : ScoredRow RouteKey).reliability_score
    ∧ (⟨some "2", none, none, none, 0, 0⟩ : ScoredRow RouteKey).reliability_score ≤ 100
    ∧ ((⟨some "2", none, none, none, 0, 0⟩ : ScoredRow RouteKey).n_events = 0 →
      (⟨some "2", none, none, none, 0, 0⟩ : ScoredRow RouteKey).reliability_score = 0) :=
  (reliability_score_always_defined_in_range tblFull 1).1 resRouteFull
    (by with_unfolding_all rfl)
    (⟨some "2", none, none, none, 0, 0⟩ : ScoredRow RouteKey)
    (List.Mem.tail _ (List.Mem.head _))

theorem mem_uniqueKeysAux {K : Type} [DecidableEq K] (l : List K) (a : K) :
    ∀ seen : List K, a ∈ uniqueKeysAux l seen ↔ a ∈ l ∧ a ∉ seen := by
  induction l with
  | nil => intro seen; simp [uniqueKeysAux]
  | cons k ks ih =>
    intro seen
    by_cases hk : k ∈ seen
    · rw [uniqueKeysAux, if_pos hk, ih]
      simp only [List.mem_cons]
      constructor
      · rintro ⟨h1, h2⟩
        exact ⟨Or.inr h1, h2⟩
      · rintro ⟨h1 | h1, h2⟩
        · exact absurd (h1 ▸ hk) h2
        · exact ⟨h1, h2⟩
    · rw [uniqueKeysAux, if_neg hk]
      simp only [List.mem_cons, ih]
      constructor
      · rintro (rfl | ⟨h1, h2⟩)
        · exact ⟨Or.inl rfl, hk⟩
        · exact ⟨Or.inr h1, fun hs => h2 (Or.inr hs)⟩
      · rintro ⟨rfl | h1, h2⟩
        · exact Or.inl rfl
        · by_cases hak : a = k
          · exact Or.inl hak
          · exact Or.inr ⟨h1, fun hs => hs.elim hak h2⟩

theorem mem_uniqueKeys {K : Type} [DecidableEq K] (l : List K) (a : K) :
    a ∈ uniqueKeys l ↔ a ∈ l := by
  unfold uniqueKeys
  rw [mem_uniqueKeysAux]
  simp

theorem route_kpis_ok_shape {df : Table} {thr : ℚ} {res : List (ScoredRow RouteKey)}
    (h : compute_route_kpis df thr = Except.ok res) :
    res = _add_reliability_score
      ((uniqueKeys (df.rows.map fun r => r.route_id)).map fun k =>
        (k, _group_kpis ((df.rows.filter fun r => decide (r.route_id = k)).map
          fun r => r.delay_minutes) thr)) := by
  unfold compute_route_kpis at h
  split at h
  · simp at h
  · obtain ⟨kpis, hk, hres⟩ := except_map_ok h
    rw [hres, groupby_apply_ok hk]

/-- C3: a group whose set of non-null delays is empty yields
`avg_delay_min`, `p90_delay_min`, `on_time_rate` all undefined and
`n_events = 0` — computed and returned (the function is total, nothing is
raised) — and such all-undefined rows appear in the output table for every
route whose events carry no non-null delay. -/
theorem empty_group_undefined_propagates :
    (∀ (delays : List (Option ℚ)) (thr : ℚ), delays.filterMap id = [] →
      _group_kpis delays thr =
        { avg_delay_min := none, p90_delay_min := none, on_time_rate := none, n_events := 0 })
    ∧ (∀ (df : Table) (thr : ℚ) (res : List (ScoredRow RouteKey)),
        compute_route_kpis df thr = Except.ok res →
        ∀ r ∈ df.rows,
          ((df.rows.filter fun x => decide (x.route_id = r.route_id)).map
            (fun x => x.delay_minutes)).filterMap id = [] →
          ∃ row ∈ res, row.key = r.route_id ∧ row.avg_delay_min = none ∧
            row.p90_delay_min = none ∧ row.on_time_rate = none ∧ row.n_events = 0) := by
  refine ⟨fun delays thr h => group_kpis_empty delays thr h, ?_⟩
  intro df thr res h r hr hempty
  have hshape := route_kpis_ok_shape h
  subst hshape
  have hk : r.route_id ∈ uniqueKeys (df.rows.map fun x => x.route_id) :=
    (mem_uniqueKeys _ _).mpr (List.mem_map.mpr ⟨r, hr, rfl⟩)
  have hst := group_kpis_empty
    ((df.rows.filter fun x => decide (x.route_id = r.route_id)).map fun x => x.delay_minutes)
    thr hempty
  refine ⟨_, List.mem_map.mpr
    ⟨(r.route_id,
      _group_kpis ((df.rows.filter fun x => decide (x.route_id = r.route_id)).map
        fun x => x.delay_minutes) thr),
     List.mem_map.mpr ⟨r.route_id, hk, rfl⟩, rfl⟩, ?_⟩
  simp [hst]

/-- Witness for C3: the one-event group whose only delay is null produces
the all-undefined statistics row with `n_events = 0`. -/
theorem empty_group_undefined_propagates_witness :
    _group_kpis [none] 1 =
      { avg_delay_min := none, p90_delay_min := none, on_time_rate := none, n_events := 0 } :=
  empty_group_undefined_propagates.1 [none] 1 rfl

/-- C4: the route-level and route+hour-level operations fail with a schema
error when `route_id` or `delay_minutes` is absent, and the route+hour and
route+period operations fail with a schema error when `hour` is absent; a
failing call returns `Except.error`, which carries no rows, so no partial
KPI table is ever produced. -/
theorem missing_column_schema_error (df : Table) (thr : ℚ) :
    ((df.has_route_id = false ∨ df.has_delay_minutes = false) →
      isErr (compute_route_kpis df thr) = true
      ∧ isErr (compute_route_hour_kpis df thr) = true)
    ∧ (df.has_hour = false →
      isErr (compute_route_hour_kpis df thr) = true
      ∧ isErr (compute_route_period_kpis df thr) = true) := by
  obtain ⟨hr, hh, hd, rows⟩ := df
  cases hr <;> cases hh <;> cases hd <;>
    simp [compute_route_kpis, compute_route_hour_kpis, compute_route_period_kpis,
      _add_time_of_day_bucket, groupby_apply, isErr, Except.map]

/-- Witness for C4: a table without the `route_id` column makes both the
route-level and the route+hour-level operations fail. -/
theorem missing_column_schema_error_witness :
    isErr (compute_route_kpis ⟨false, true, true, []⟩ 1) = true
    ∧ isErr (compute_route_hour_kpis ⟨false, true, true, []⟩ 1) = true :=
  (missing_column_schema_error ⟨false, true, true, []⟩ 1).1 (Or.inl rfl)

/-- C5: the Time-of-Day Bucketer is total on integer hours 0–23 and on
null, assigns exactly one of the five labels to every input, and follows
the boundary table `[7,10) ↦ Morning peak`, `[10,16) ↦ Midday`,
`[16,19) ↦ Evening peak`, remaining hours `↦ Night / off-peak`,
`null ↦ Unknown`; in particular 8 is morning peak and 22 is night. -/
theorem time_of_day_bucket_total :
    _bucket none = "Unknown"
    ∧ (∀ n : ℕ, n < 24 → _bucket (some (n : ℚ)) =
        (if 7 ≤ n ∧ n < 10 then "Morning peak"
         else if 10 ≤ n ∧ n < 16 then "Midday"
         else if 16 ≤ n ∧ n < 19 then "Evening peak"
         else "Night / off-peak"))
    ∧ _bucket (some 8) = "Morning peak"
    ∧ _bucket (some 22) = "Night / off-peak"
    ∧ (∀ h : Option ℚ, _bucket h = "Unknown" ∨ _bucket h = "Morning peak"
        ∨ _bucket h = "Midday" ∨ _bucket h = "Evening peak"
        ∨ _bucket h = "Night / off-peak") := by
  refine ⟨rfl, by decide, by decide, by decide, ?_⟩
  intro h
  rcases h with _ | x
  · exact Or.inl rfl
  · simp only [_bucket]
    split_ifs <;> simp

/-- Witness for C5: hour 8 falls in the `[7,10)` bucket. -/
theorem time_of_day_bucket_total_witness :
    _bucket (some ((8 : ℕ) : ℚ)) =
      (if 7 ≤ (8 : ℕ) ∧ (8 : ℕ) < 10 then "Morning peak"
       else if 10 ≤ (8 : ℕ) ∧ (8 : ℕ) < 16 then "Midday"
       else if 16 ≤ (8 : ℕ) ∧ (8 : ℕ) < 19 then "Evening peak"
       else "Night / off-peak") :=
  time_of_day_bucket_total.2.1 8 (by decide)

theorem quantile90_mem_bounds (l : List ℚ) (m M : ℚ) (hne : l ≠ [])
    (hm : ∀ x ∈ l, m ≤ x) (hM : ∀ x ∈ l, x ≤ M) :
    m ≤ quantile90 l ∧ quantile90 l ≤ M := by
  have hsl : ∀ x ∈ l.insertionSort (· ≤ ·), m ≤ x ∧ x ≤ M := by
    intro x hx
    have hxl : x ∈ l := (List.mem_insertionSort _).mp hx
    exact ⟨hm x hxl, hM x hxl⟩
  have hpos : 0 < (l.insertionSort (· ≤ ·)).length := by
    rw [List.length_insertionSort]
    exact List.length_pos.mpr hne
  unfold quantile90
  set s := l.insertionSort (· ≤ ·) with hs
  set n := s.length with hn
  set lo := 9 * (n - 1) / 10 with hlo
  have hlo_lt : lo < n := by omega
  have hnat : 10 * lo ≤ 9 * (n - 1) ∧ 9 * (n - 1) < 10 * lo + 10 := by omega
  have hfrac0 : (lo : ℚ) ≤ 9 * ((n - 1 : ℕ) : ℚ) / 10 := by
    rw [le_div_iff₀ (by norm_num)]
    have : ((10 * lo : ℕ) : ℚ) ≤ ((9 * (n - 1) : ℕ) : ℚ) := by exact_mod_cast hnat.1
    push_cast at this
    linarith
  have hfrac1 : 9 * ((n - 1 : ℕ) : ℚ) / 10 ≤ (lo : ℚ) + 1 := by
    rw [div_le_iff₀ (by norm_num)]
    have : ((9 * (n - 1) : ℕ) : ℚ) ≤ ((10 * lo + 9 : ℕ) : ℚ) := by exact_mod_cast by omega
    push_cast at this
    linarith
  have hlo_lt' : lo < s.length := by omega
  have hxlo : m ≤ s.getD lo 0 ∧ s.getD lo 0 ≤ M := by
    rw [List.getD_eq_getElem s 0 hlo_lt']
    exact hsl _ (List.getElem_mem hlo_lt')
  have hxhi : m ≤ s.getD (lo + 1) (s.getD lo 0) ∧ s.getD (lo + 1) (s.getD lo 0) ≤ M := by
    by_cases hhi : lo + 1 < s.length
    · rw [List.getD_eq_getElem s (s.getD lo 0) hhi]
      exact hsl _ (List.getElem_mem hhi)
    · rw [List.getD_eq_default s (s.getD lo 0) (by omega)]
      exact hxlo
  constructor
  · nlinarith [hxlo.1, hxlo.2, hxhi.1, hxhi.2, hfrac0, hfrac1]
  · nlinarith [hxlo.1, hxlo.2, hxhi.1, hxhi.2, hfrac0, hfrac1]

/-- C6: for a non-empty set of non-null delays, `p90_delay_min` is the
linear-interpolation 90th percentile of the group (`quantile90`); on the
partition `[1,…,10]` it is exactly 9.1, and it always lies between any
lower bound and any upper bound of the partition (in particular between
its minimum and its maximum). -/
theorem p90_linear_interpolation :
    (∀ (delays : List (Option ℚ)) (thr : ℚ), delays.filterMap id ≠ [] →
      (_group_kpis delays thr).p90_delay_min = some (quantile90 (delays.filterMap id)))
    ∧ quantile90 [1, 2, 3, 4, 5, 6, 7, 8, 9, 10] = 91 / 10
    ∧ (∀ (l : List ℚ) (m M : ℚ), l ≠ [] → (∀ x ∈ l, m ≤ x) → (∀ x ∈ l, x ≤ M) →
        m ≤ quantile90 l ∧ quantile90 l ≤ M) := by
  refine ⟨?_, by with_unfolding_all rfl,
    fun l m M h hm hM => quantile90_mem_bounds l m M h hm hM⟩
  intro delays thr h
  rw [group_kpis_nonempty delays thr h]

/-- Witness for C6: on the partition `[2, 5]` the interpolated p90 stays
within the partition's bounds. -/
theorem p90_linear_interpolation_witness :
    2 ≤ quantile90 [2, 5] ∧ quantile90 [2, 5] ≤ 5 :=
  p90_linear_interpolation.2.2 [2, 5] 2 5 (by simp)
    (by intro x hx; rcases List.mem_cons.mp hx with rfl | hx2
        · norm_num
        · rcases List.mem_cons.mp hx2 with rfl | hx3
          · norm_num
          · simp at hx3)
    (by intro x hx; rcases List.mem_cons.mp hx with rfl | hx2
        · norm_num
        · rcases List.mem_cons.mp hx2 with rfl | hx3
          · norm_num
          · simp at hx3)

/-- C7: `on_time_rate` is the fraction of non-null delays at most the
threshold (inclusive), and for a fixed partition it is monotone
non-decreasing in the threshold. -/
theorem on_time_rate_fraction_monotone :
    (∀ (delays : List (Option ℚ)) (thr : ℚ), delays.filterMap id ≠ [] →
      (_group_kpis delays thr).on_time_rate =
        some (((delays.filterMap id).countP (fun x => decide (x ≤ thr)) : ℚ) /
          ((delays.filterMap id).length : ℚ)))
    ∧ (∀ (l : List ℚ) (t1 t2 : ℚ), l ≠ [] → t1 ≤ t2 →
        onTimeRate l t1 ≤ onTimeRate l t2) := by
  constructor
  · intro delays thr h
    rw [group_kpis_nonempty delays thr h]
    rfl
  · intro l t1 t2 hne ht
    unfold onTimeRate
    have hlen : (0 : ℚ) < (l.length : ℚ) := by
      exact_mod_cast List.length_pos.mpr hne
    rw [div_le_div_iff_of_pos_right hlen]
    have hcount : l.countP (fun x => decide (x ≤ t1)) ≤ l.countP (fun x => decide (x ≤ t2)) := by
      refine List.countP_mono_left ?_
      intro x _ hp
      exact decide_eq_true ((of_decide_eq_true hp).trans ht)
    exact_mod_cast hcount

/-- Witness for C7: on the partition `[1, 3]`, raising the threshold from
1 to 2 cannot lower the on-time rate. -/
theorem on_time_rate_fraction_monotone_witness :
    onTimeRate [1, 3] 1 ≤ onTimeRate [1, 3] 2 :=
  on_time_rate_fraction_monotone.2 [1, 3] 1 2 (by simp) (by norm_num)

theorem int_neg_ediv_eq {a b : ℤ} (hb : 0 < b) (hnd : ¬b ∣ a) :
    -a / b = -(a / b) - 1 := by
  have h1 := Int.ediv_add_emod a b
  have h2 := Int.ediv_add_emod (-a) b
  have hz : a % b ≠ 0 := fun h => hnd (Int.dvd_of_emod_eq_zero h)
  have hm1a : 0 ≤ a % b := Int.emod_nonneg a (by omega)
  have hm1b : a % b < b := Int.emod_lt_of_pos a hb
  have key : -a % b = b - a % b := by
    rw [Int.neg_emod, Int.sub_emod, Int.emod_self, Int.zero_sub, Int.neg_emod]
    exact Int.emod_eq_of_lt (by omega) (by omega)
  have hmul : b * (-a / b) = b * (-(a / b) - 1) := by
    have hexp : b * (-(a / b) - 1) = -(b * (a / b)) - b := by ring
    rw [hexp]
    linarith
  exact mul_left_cancel₀ (by omega : b ≠ 0) hmul

theorem rat_floor_bridge (q : ℚ) : q.floor = ⌊q⌋ := by
  rw [Rat.floor_def]
  exact Rat.floor_def' q

theorem rat_ceil_bridge (q : ℚ) : q.ceil = ⌈q⌉ := by
  have hneg : q.ceil = -((-q).floor) := by
    show Rat.ceil q = -Rat.floor (-q)
    unfold Rat.ceil Rat.floor
    simp only [Rat.neg_num, Rat.neg_den]
    by_cases h : q.den = 1
    · simp [h]
    · rw [if_neg h, if_neg h]
      have hb : 0 < (q.den : ℤ) := by exact_mod_cast q.den_pos
      have hnd : ¬((q.den : ℤ) ∣ q.num) := by
        intro hdvd
        have hd : q.den ∣ q.num.natAbs := Int.natCast_dvd.mp hdvd
        exact h (Nat.dvd_one.mp (q.reduced ▸ Nat.dvd_gcd hd dvd_rfl))
      rw [int_neg_ediv_eq hb hnd]
      ring
  rw [hneg, rat_floor_bridge]
  rw [show q = -(-q) by ring, Int.ceil_neg, neg_neg]

/-- C10: the Time-of-Day Bucketer is total on every numeric hour, not only
on 0–23 (totality is by construction: `_bucket` is a total function, so no
numeric input raises).  A non-null hour is first truncated toward zero
(`int(h)`), which is the mathematical floor for non-negative hours and the
ceiling for negative ones, so 9.7 buckets as hour 9; and every truncated
value outside `[7, 19)` — including out-of-range hours such as -1 and
24 — gets `"Night / off-peak"`. -/
theorem bucket_total_on_all_numeric_hours :
    (∀ q : ℚ, 0 ≤ q → py_int q = ⌊q⌋)
    ∧ (∀ q : ℚ, q < 0 → py_int q = ⌈q⌉)
    ∧ py_int (97 / 10) = 9
    ∧ py_int (-97 / 10) = -9
    ∧ _bucket (some (97 / 10)) = "Morning peak"
    ∧ (∀ q : ℚ, py_int q < 7 ∨ 19 ≤ py_int q → _bucket (some q) = "Night / off-peak")
    ∧ _bucket (some (-1)) = "Night / off-peak"
    ∧ _bucket (some 24) = "Night / off-peak" := by
  refine ⟨?_, ?_, by with_unfolding_all rfl, by with_unfolding_all rfl,
    by with_unfolding_all rfl, ?_, by with_unfolding_all rfl, by with_unfolding_all rfl⟩
  · intro q hq
    unfold py_int
    rw [if_pos hq]
    exact rat_floor_bridge q
  · intro q hq
    unfold py_int
    rw [if_neg (not_le.mpr hq)]
    exact rat_ceil_bridge q
  · intro q hq
    simp only [_bucket]
    rcases hq with hq | hq <;> split_ifs <;> first | rfl | (exfalso; omega)

/-- Witness for C10: the fractional hour 9.7 truncates to `⌊9.7⌋ = 9`, and
the out-of-range truncated hour of 97 lands in the night bucket. -/
theorem bucket_total_on_all_numeric_hours_witness :
    py_int (97 / 10) = ⌊(97 / 10 : ℚ)⌋ ∧ _bucket (some 97) = "Night / off-peak" :=
  ⟨bucket_total_on_all_numeric_hours.1 (97 / 10) (by norm_num),
   bucket_total_on_all_numeric_hours.2.2.2.2.2.1 97
     (Or.inr (by rw [bucket_total_on_all_numeric_hours.1 97 (by norm_num)]; norm_num))⟩

/-- The unscored route-level KPI frame built from `tblFull`. -/
def kpiRowsFull : List (RouteKey × GroupStats) :=
  [(some "1", { avg_delay_min := some (5/4), p90_delay_min := some (37/20),
                on_time_rate := some (1/2), n_events := 2 }),
   (some "2", { avg_delay_min := none, p90_delay_min := none,
                on_time_rate := none, n_events := 0 })]

/-- C9: each of the three KPI operations, run over the dataframe store,
leaves the caller's input frame untouched (same id, bit-identical
contents — no column added, removed or modified) and returns a freshly
allocated frame with an id distinct from the input's. -/
theorem no_caller_table_mutation (s : Store) (i : ℕ) (t : Table) (thr : ℚ) :
    (∀ s2 o, s[i]? = some (Frame.ev t) →
      py_compute_route_kpis s i thr = Except.ok (s2, o) →
      s2[i]? = some (Frame.ev t) ∧ o ≠ i ∧ ∃ rows, s2[o]? = some (Frame.scoredR rows))
    ∧ (∀ s2 o, s[i]? = some (Frame.ev t) →
      py_compute_route_hour_kpis s i thr = Except.ok (s2, o) →
      s2[i]? = some (Frame.ev t) ∧ o ≠ i ∧ ∃ rows, s2[o]? = some (Frame.scoredH rows))
    ∧ (∀ s2 o, s[i]? = some (Frame.ev t) →
      py_compute_route_period_kpis s i thr = Except.ok (s2, o) →
      s2[i]? = some (Frame.ev t) ∧ o ≠ i ∧ ∃ rows, s2[o]? = some (Frame.scoredP rows)) := by
  have hi : ∀ h : s[i]? = some (Frame.ev t), i < s.length := by
    intro h
    by_contra hge
    rw [List.getElem?_eq_none (Nat.le_of_not_lt hge)] at h
    exact Option.noConfusion h
  refine ⟨?_, ?_, ?_⟩
  · intro s2 o hread hrun
    have hilt := hi hread
    simp only [py_compute_route_kpis, hread] at hrun
    split at hrun
    · exact absurd hrun (by simp)
    · split at hrun
      · exact absurd hrun (by simp)
      · rename_i rows heq
        simp only [Except.ok.injEq, Prod.mk.injEq] at hrun
        obtain ⟨rfl, rfl⟩ := hrun
        refine ⟨?_, by simp; omega, ?_⟩
        · rw [List.getElem?_set_ne (by simp; omega),
            List.getElem?_append_left (by simp; omega),
            List.getElem?_append_left hilt]
          exact hread
        · exact ⟨_add_reliability_score rows, by
            rw [List.getElem?_set_self (by simp)]⟩
  · intro s2 o hread hrun
    have hilt := hi hread
    simp only [py_compute_route_hour_kpis, hread] at hrun
    split at hrun
    · exact absurd hrun (by simp)
    · split at hrun
      · exact absurd hrun (by simp)
      · split at hrun
        · exact absurd hrun (by simp)
        · rename_i rows heq
          simp only [Except.ok.injEq, Prod.mk.injEq] at hrun
          obtain ⟨rfl, rfl⟩ := hrun
          refine ⟨?_, by simp; omega, ?_⟩
          · rw [List.getElem?_set_ne (by simp; omega),
              List.getElem?_append_left (by simp; omega),
              List.getElem?_append_left hilt]
            exact hread
          · exact ⟨_add_reliability_score rows, by
              rw [List.getElem?_set_self (by simp)]⟩
  · intro s2 o hread hrun
    have hilt := hi hread
    simp only [py_compute_route_period_kpis, hread] at hrun
    split at hrun
    · exact absurd hrun (by simp)
    · split at hrun
      · exact absurd hrun (by simp)
      · split at hrun
        · exact absurd hrun (by simp)
        · rename_i rows heq
          simp only [Except.ok.injEq, Prod.mk.injEq] at hrun
          obtain ⟨rfl, rfl⟩ := hrun
          refine ⟨?_, by simp; omega, ?_⟩
          · rw [List.getElem?_set_ne (by simp; omega),
              List.getElem?_append_left (by simp; omega),
              List.getElem?_append_left (by simp; omega),
              List.getElem?_set_ne (by omega),
              List.getElem?_append_left hilt]
            exact hread
          · exact ⟨_add_reliability_score rows, by
              rw [List.getElem?_set_self (by simp)]⟩

/-- Witness for C9: running the route-level operation on a one-frame store
holding `tblFull` leaves frame 0 exactly as it was and returns the fresh
frame id 2. -/
theorem no_caller_table_mutation_witness :
    ([Frame.ev tblFull, Frame.kpiR kpiRowsFull,
      Frame.scoredR (_add_reliability_score kpiRowsFull)] : Store)[0]? =
        some (Frame.ev tblFull)
    ∧ (2 : ℕ) ≠ 0 := by
  have h := (no_caller_table_mutation [Frame.ev tblFull] 0 tblFull 1).1
    [Frame.ev tblFull, Frame.kpiR kpiRowsFull,
     Frame.scoredR (_add_reliability_score kpiRowsFull)] 2
    (by with_unfolding_all rfl) (by with_unfolding_all rfl)
  exact ⟨h.1, h.2.1⟩

end PTDelay
